import Mathlib

/-!
# Verification of the price-tracking subsystem of `shopping-agent`

Shallow embedding of `price_tracker.py` (class `PriceTracker`): the report
parser `_store_price_data` / `_extract_price` / `_save_record`, the alert
detector `_check_price_alerts`, the tracking loop `_tracking_loop`, the
session registry operations `stop_tracking` / `get_statistics` /
`get_summary`, and the persisted schema from `_init_database` /
`start_tracking`.

Modelling conventions:
* Python strings become `List Char` (the parser iterates over characters);
  the input report is split into lines exactly as `results.split('\n')`.
* Python floats become `ℚ`.  All numerals the parser can produce are exact
  decimals, so rational arithmetic is the intended reading of the numeric
  comparisons in the source.
* Python truthiness is modelled explicitly where the source relies on it
  (`if duration_hours:`, `if price:`, `if current_retailer and
  current_data.get('total_price'):`): `None` and `0`/`''` are falsy.
* `dict.get(k, default)` becomes `Option.getD`.
-/

namespace ShoppingAgent

/-! ## Python string primitives (ASCII fragment used by the source) -/

/-- The characters removed by Python `str.strip()` with no argument. -/
def pySpace (c : Char) : Bool :=
  c = ' ' || c = '\t' || c = '\n' || c = '\r' || c = '\x0b' || c = '\x0c'

/-- Drop the longest run of characters satisfying `p` from both ends,
mirroring Python `str.strip(chars)`. -/
def dropEdges (p : Char → Bool) (l : List Char) : List Char :=
  ((l.dropWhile p).reverse.dropWhile p).reverse

/-- Python `line.strip()`. -/
def pyStrip (l : List Char) : List Char := dropEdges pySpace l

/-- Python `line.strip('*')`. -/
def dropStars (l : List Char) : List Char := dropEdges (fun c => c = '*') l

/-- Python `needle.isPrefixOf hay` written out: `hay.startswith(needle)`. -/
def startsWithL : List Char → List Char → Bool
  | [], _ => true
  | _ :: _, [] => false
  | a :: as, b :: bs => a = b && startsWithL as bs

/-- Python `hay.endswith(needle)`. -/
def endsWithL (needle hay : List Char) : Bool :=
  startsWithL needle.reverse hay.reverse

/-- Python substring test `needle in hay`. -/
def subIn : List Char → List Char → Bool
  | n, [] => n.isEmpty
  | n, c :: rest => startsWithL n (c :: rest) || subIn n rest

/-- Python `str.lower()` on the ASCII fragment the parser uses. -/
def toLowerList (l : List Char) : List Char := l.map Char.toLower

/-! ## `PriceTracker._extract_price`

```python
match = re.search(r'\$?([\d,]+\.?\d*)', text)
if match:
    price_str = match.group(1).replace(',', '')
    try: return float(price_str)
    except: return None
return None
```
-/

/-- Character class `[\d,]` of the price regex. -/
def isDigitOrComma (c : Char) : Bool := c.isDigit || c = ','

/-- The greedy match of `[\d,]+\.?\d*` starting at the head of `l`
(the head is assumed to be in `[\d,]`): all leading digits/commas, then an
optional dot followed by the greedy run of digits. -/
def numTail (l : List Char) : List Char :=
  let ds := l.takeWhile isDigitOrComma
  match l.drop ds.length with
  | '.' :: rest => ds ++ '.' :: rest.takeWhile Char.isDigit
  | _ => ds

/-- `re.search(r'\$?([\d,]+\.?\d*)', text)`: scan left to right for the
first position where the pattern matches, returning capture group 1.
A position matches when it holds a digit/comma, or a `$` immediately
followed by a digit/comma. -/
def regexSearchNum : List Char → Option (List Char)
  | [] => none
  | c :: rest =>
    if isDigitOrComma c then some (numTail (c :: rest))
    else if c = '$' then
      match rest with
      | [] => none
      | d :: _ =>
        if isDigitOrComma d then some (numTail rest) else regexSearchNum rest
    else regexSearchNum rest

/-- Decimal value of a digit string (`[]` counts as 0, as in `float("1.")`). -/
def digitsVal (ds : List Char) : ℕ :=
  ds.foldl (fun a c => a * 10 + (c.toNat - '0'.toNat)) 0

/-- Python `float(s)` restricted to the strings the regex group can
produce after comma-stripping: `digits* ('.' digits*)?`.  `float` fails
(raises, hence `none`) exactly when no digit is present (`""`, `"."`).
The exact decimal `ip.frac` is the rational
`(ip·10^|frac| + frac) / 10^|frac|`. -/
def pyFloat (s : List Char) : Option ℚ :=
  let ip := s.takeWhile Char.isDigit
  match s.drop ip.length with
  | [] => if ip.isEmpty then none else some (digitsVal ip)
  | '.' :: frac =>
    if frac.all Char.isDigit then
      if ip.isEmpty && frac.isEmpty then none
      else some (mkRat (digitsVal ip * 10 ^ frac.length + digitsVal frac)
        (10 ^ frac.length))
    else none
  | _ => none

/-- `PriceTracker._extract_price`. -/
def extractPrice (l : List Char) : Option ℚ :=
  match regexSearchNum l with
  | some g => pyFloat (g.filter (fun c => c ≠ ','))
  | none => none

/-! ## `PriceTracker._store_price_data` and `_save_record`

The parser walks the report line by line keeping a current retailer and an
accumulating field dictionary, flushing a record at each new bolded heading
and at end of input, but only when a (truthy) total price was found.
-/

/-- The accumulating `current_data` dictionary: each key is absent until a
line sets it. -/
structure FieldData where
  base_price : Option ℚ := none
  tax : Option ℚ := none
  shipping : Option ℚ := none
  total_price : Option ℚ := none
  product_url : Option (List Char) := none
  cashback_info : Option (List Char) := none
  credit_card_info : Option (List Char) := none
deriving DecidableEq

/-- One row of `price_records` as inserted by `_save_record`: absent keys
are defaulted (`data.get(k, 0)` / `data.get(k, '')`), so every column is
stored non-null. -/
structure PriceRecord where
  retailer : List Char
  product_url : List Char
  base_price : ℚ
  tax : ℚ
  shipping : ℚ
  total_price : ℚ
  cashback_info : List Char
  credit_card_info : List Char
deriving DecidableEq

/-- `PriceTracker._save_record` applied to `current_data`. -/
def mkRecord (retailer : List Char) (d : FieldData) : PriceRecord where
  retailer := retailer
  product_url := d.product_url.getD []
  base_price := d.base_price.getD 0
  tax := d.tax.getD 0
  shipping := d.shipping.getD 0
  total_price := d.total_price.getD 0
  cashback_info := d.cashback_info.getD []
  credit_card_info := d.credit_card_info.getD []

/-- The loop state of `_store_price_data`: `current_retailer` (Python
`None` initially), `current_data`, and the records saved so far. -/
structure ParseState where
  current_retailer : Option (List Char)
  data : FieldData
  records : List PriceRecord
deriving DecidableEq

def initState : ParseState := ⟨none, {}, []⟩

/-- The flush `if current_retailer and current_data.get('total_price'):
save_record(...)`: both tests are Python truthiness, so an empty retailer
name or a `0.0` total suppress the save. -/
def flushRecords (st : ParseState) : List PriceRecord :=
  match st.current_retailer, st.data.total_price with
  | some r, some t =>
    if r ≠ [] ∧ t ≠ 0 then st.records ++ [mkRecord r st.data] else st.records
  | _, _ => st.records

/-- The line classes of the `elif` chain in `_store_price_data`, in source
order. -/
inductive LineClass where
  | heading
  | basePriceLine
  | taxLine
  | shippingLine
  | totalLine
  | urlLine
  | cashbackLine
  | cardLine
  | other
deriving DecidableEq

def star2 : List Char := ['*', '*']

/-- `line.startswith('**') and line.endswith('**')`. -/
def isHeadingLine (l : List Char) : Bool :=
  startsWithL star2 l && endsWithL star2 l

/-- `'Base Price:' in line or 'base price:' in line.lower()`. -/
def hasBaseCue (l : List Char) : Bool :=
  subIn "Base Price:".toList l || subIn "base price:".toList (toLowerList l)

/-- `'Tax' in line and '$' in line`. -/
def hasTaxCue (l : List Char) : Bool :=
  subIn "Tax".toList l && subIn "$".toList l

/-- `'Shipping:' in line or 'shipping:' in line.lower()`. -/
def hasShipCue (l : List Char) : Bool :=
  subIn "Shipping:".toList l || subIn "shipping:".toList (toLowerList l)

/-- `'TOTAL:' in line or 'Total:' in line` (case-sensitive). -/
def hasTotalCue (l : List Char) : Bool :=
  subIn "TOTAL:".toList l || subIn "Total:".toList l

/-- `'URL:' in line or 'url:' in line.lower()`. -/
def hasUrlCue (l : List Char) : Bool :=
  subIn "URL:".toList l || subIn "url:".toList (toLowerList l)

/-- `'Cashback' in line`. -/
def hasCashbackCue (l : List Char) : Bool := subIn "Cashback".toList l

/-- `'Credit Card' in line or '💳' in line`. -/
def hasCardCue (l : List Char) : Bool :=
  subIn "Credit Card".toList l || subIn [Char.ofNat 0x1F4B3] l

/-- The `if/elif` chain of `_store_price_data`, applied to the stripped
line. -/
def classifyLine (l : List Char) : LineClass :=
  if isHeadingLine l then .heading
  else if hasBaseCue l then .basePriceLine
  else if hasTaxCue l then .taxLine
  else if hasShipCue l then .shippingLine
  else if hasTotalCue l then .totalLine
  else if hasUrlCue l then .urlLine
  else if hasCashbackCue l then .cashbackLine
  else if hasCardCue l then .cardLine
  else .other

/-- `line.split(':', 1)[-1]`: everything after the first colon, or the
whole line when there is none. -/
def afterFirstColon (l : List Char) : List Char :=
  if l.any (fun c => c = ':') then (l.dropWhile (fun c => c ≠ ':')).drop 1
  else l

/-- One iteration of the `for line in lines:` loop of `_store_price_data`.
Numeric fields are set only when `_extract_price` returns a truthy value
(`if price:` — `None` and `0.0` are both rejected); a heading flushes the
previous section and resets the accumulator; the URL value is
`line.split(':', 1)[-1].strip()`; cashback/credit-card lines are stored
verbatim (stripped). -/
def processLineL (st : ParseState) (rawLine : List Char) : ParseState :=
  let line := pyStrip rawLine
  match classifyLine line with
  | .heading =>
    { current_retailer := some (pyStrip (dropStars line))
      data := {}
      records := flushRecords st }
  | .basePriceLine =>
    match extractPrice line with
    | some p => if p ≠ 0 then { st with data := { st.data with base_price := some p } } else st
    | none => st
  | .taxLine =>
    match extractPrice line with
    | some p => if p ≠ 0 then { st with data := { st.data with tax := some p } } else st
    | none => st
  | .shippingLine =>
    if subIn "free".toList (toLowerList line) then
      { st with data := { st.data with shipping := some 0 } }
    else
      match extractPrice line with
      | some p => if p ≠ 0 then { st with data := { st.data with shipping := some p } } else st
      | none => st
  | .totalLine =>
    match extractPrice line with
    | some p => if p ≠ 0 then { st with data := { st.data with total_price := some p } } else st
    | none => st
  | .urlLine =>
    { st with data := { st.data with product_url := some (pyStrip (afterFirstColon line)) } }
  | .cashbackLine =>
    { st with data := { st.data with cashback_info := some line } }
  | .cardLine =>
    { st with data := { st.data with credit_card_info := some line } }
  | .other => st

/-- `_store_price_data` on an already-split list of lines: fold the line
loop from the initial state, then flush the final section. -/
def processLinesL (lines : List (List Char)) : List PriceRecord :=
  flushRecords (lines.foldl processLineL initState)

/-- Python `results.split('\n')` on the character list: every newline is
a separator and empty pieces are preserved (`''.split('\n') == ['']`). -/
def splitOnNewline : List Char → List (List Char)
  | [] => [[]]
  | c :: rest =>
    if c = '\n' then [] :: splitOnNewline rest
    else
      match splitOnNewline rest with
      | l :: ls => (c :: l) :: ls
      | [] => [[c]]

/-- `PriceTracker._store_price_data`: split the report on newlines and run
the line loop.  The returned list is the sequence of `price_records` rows
inserted (its length is the `records_saved` return value). -/
def storePriceData (results : String) : List PriceRecord :=
  processLinesL (splitOnNewline results.toList)

/-! ## `PriceTracker._check_price_alerts`

The rows of `price_records` for the session are read most-recent-first and
grouped by retailer; for each retailer with at least two observations the
newest price is compared with the second newest.
-/

/-- The per-retailer body of `_check_price_alerts`, on that retailer's
total prices ordered most recent first:

```python
if len(prices) >= 2:
    new_price = prices[0][0]; old_price = prices[1][0]
    if old_price > 0:
        change_percent = ((new_price - old_price) / old_price) * 100
        if abs(change_percent) >= 5: INSERT (old, new, change_percent)
```

The result is the `price_alerts` row `(old_price, new_price,
change_percent)` inserted, if any. -/
def checkRetailerAlert (prices : List ℚ) : Option (ℚ × ℚ × ℚ) :=
  match prices with
  | newP :: oldP :: _ =>
    if oldP > 0 then
      let pct := (newP - oldP) / oldP * 100
      if |pct| ≥ 5 then some (oldP, newP, pct) else none
    else none
  | _ => none

/-! ## `PriceTracker._tracking_loop` (discrete-tick model)

The loop body is abstracted over the stop-flag value observed at the top
of each iteration (`stop i`) and the elapsed wall-clock hours at the top
of each iteration (`elapsed i`); one unit of the result counts one tick
(one `search_product_prices` + store + alert-check block).
-/

/-- `if duration_hours:` followed by `if elapsed >= duration_hours: break`.
Python truthiness: the check is skipped when `duration_hours` is `None`
*or* `0`. -/
def durationCheckFires (durationHours : Option ℚ) (elapsedHours : ℚ) : Bool :=
  match durationHours with
  | none => false
  | some d => if d = 0 then false else decide (elapsedHours ≥ d)

/-- `_tracking_loop`, fuelled: starting at iteration `i` with `fuel`
iterations of budget, return the number of ticks performed and whether the
loop exited (`true`) or merely ran out of fuel while still active
(`false`).  The `while not stop_flag.is_set()` test is the stop check at
the top of each iteration; the duration check follows it, before the
search call. -/
def trackLoop (durationHours : Option ℚ) (stop : ℕ → Bool) (elapsed : ℕ → ℚ) :
    ℕ → ℕ → ℕ × Bool
  | _, 0 => (0, false)
  | i, fuel + 1 =>
    if stop i then (0, true)
    else if durationCheckFires durationHours (elapsed i) then (0, true)
    else
      let r := trackLoop durationHours stop elapsed (i + 1) fuel
      (r.1 + 1, r.2)

/-- The inter-tick wait of `_tracking_loop`:

```python
wait_seconds = interval_minutes * 60
for _ in range(wait_seconds):
    if stop_flag.is_set(): break
    time.sleep(1)
```

`flag j` is the stop-flag value observed at the `j`-th check of this wait
(each check is followed by a one-second sleep when the flag is down);
the result is the number of `time.sleep(1)` calls executed. -/
def waitLoopSleeps (flag : ℕ → Bool) : ℕ → ℕ → ℕ
  | _, 0 => 0
  | j, fuel + 1 =>
    if flag j then 0 else waitLoopSleeps flag (j + 1) fuel + 1

/-- The argument of the `time.sleep` call in the wait loop, in
milliseconds: the loop polls the stop flag once per second. -/
def pollPeriodMs : ℕ := 1000

/-! ## Persisted schema and `start_tracking` insert (`_init_database`) -/

/-- Column names of `tracking_sessions` in `_init_database`. -/
def trackingSessionsColumns : List String :=
  ["id", "product_query", "start_time", "end_time", "interval_minutes", "status"]

/-- Column names of `price_records` in `_init_database`. -/
def priceRecordsColumns : List String :=
  ["id", "session_id", "timestamp", "retailer", "product_url", "base_price",
   "tax", "shipping", "total_price", "cashback_info", "credit_card_info"]

/-- Column names of `price_alerts` in `_init_database`. -/
def priceAlertsColumns : List String :=
  ["id", "session_id", "retailer", "old_price", "new_price", "change_percent",
   "timestamp"]

/-- The explicit column list of the `INSERT INTO tracking_sessions` in
`start_tracking` (the remaining columns are filled by their defaults). -/
def startTrackingInsertColumns : List String :=
  ["product_query", "interval_minutes", "status"]

/-- The values `start_tracking` binds in its INSERT, as a function of all
of its arguments: `(product_query, interval_minutes, 'active')`.  The
`duration_hours` argument is only passed to the background thread; it does
not occur in the SQL. -/
def startTrackingInsertValues (productQuery : String) (intervalMinutes : ℤ)
    (durationHours : Option ℤ) : String × ℤ × String :=
  (productQuery, intervalMinutes, "active")

/-! ## Session registry: `stop_tracking`, `get_statistics`, `get_summary` -/

/-- An entry of the in-memory `active_sessions` dict (thread handle
elided; the stop flag is the `threading.Event`). -/
structure ActiveEntry where
  stop_flag : Bool
  product : String
  interval : ℤ
deriving DecidableEq

/-- `stop_tracking`: if the id is a key of `active_sessions`, set its stop
flag and return `True`; otherwise return `False` and leave the registry
unchanged. -/
def stopTracking (reg : List (ℕ × ActiveEntry)) (sessionId : ℕ) :
    Bool × List (ℕ × ActiveEntry) :=
  if (reg.map Prod.fst).contains sessionId then
    (true,
     reg.map fun p =>
       if p.1 = sessionId then (p.1, { p.2 with stop_flag := true }) else p)
  else (false, reg)

/-- A row of `tracking_sessions` as read back by the control surface. -/
structure SessionRow where
  id : ℕ
  product_query : String
  status : String
deriving DecidableEq

/-- Result of `get_statistics` / `get_summary`: the source prints
`❌ Session {id} not found` and returns `None` when the SELECT yields no
row, otherwise prints the report; no exception escapes either way. -/
inductive LookupResult where
  | notFound
  | report (productQuery status : String)
deriving DecidableEq

/-- `get_statistics`, reduced to its control flow on the session lookup:
`SELECT ... WHERE id = ?` then `if not session: print('not found'); return`. -/
def getStatistics (sessions : List SessionRow) (sessionId : ℕ) : LookupResult :=
  match sessions.find? (fun s => s.id = sessionId) with
  | none => .notFound
  | some s => .report s.product_query s.status

/-- `get_summary`, same lookup-and-report control flow as
`get_statistics`. -/
def getSummary (sessions : List SessionRow) (sessionId : ℕ) : LookupResult :=
  match sessions.find? (fun s => s.id = sessionId) with
  | none => .notFound
  | some s => .report s.product_query s.status

/-! ## Well-formed report sections (for the parser claims)

To quantify over "every report text containing N bolded retailer sections
each with a `TOTAL: $X.XX` line" we render such reports from structured
sections and run the real parser on the result.
-/

/-- Characters that may occur in a rendered amount `X.XX`: digits,
thousands separators and the decimal point. -/
def amountChar (c : Char) : Bool := c.isDigit || c = ',' || c = '.'

/-- A retailer-name edge character that survives `strip('*').strip()`:
neither an asterisk nor whitespace. -/
def cleanEdge (c : Char) : Bool := !(c = '*') && !(pySpace c)

/-- A printable retailer name: nonempty, and its first and last characters
are neither `*` nor whitespace, so the name is recovered exactly from its
bolded heading. -/
def goodName (n : List Char) : Bool :=
  cleanEdge (n.headD '*') && cleanEdge (n.reverse.headD '*')

/-- The bolded heading line of a retailer section. -/
def headingLineOf (n : List Char) : List Char := star2 ++ n ++ star2

/-- The `TOTAL: $X.XX` line of a retailer section. -/
def totalLineOf (a : List Char) : List Char := "TOTAL: $".toList ++ a

/-- The numeric value of an amount text, thousands separators stripped
(`float(X.replace(',', ''))`). -/
def amountQ (a : List Char) : ℚ := (pyFloat (a.filter (fun c => c ≠ ','))).getD 0

/-- A well-formed dollar amount `X.XX`: a nonempty run of digits (possibly
with thousands separators) followed by a dot and exactly two digits, of
nonzero value. -/
def goodAmount (a : List Char) : Bool :=
  let ds := a.takeWhile isDigitOrComma
  !ds.isEmpty &&
  (match a.drop ds.length with
   | ['.', c1, c2] => c1.isDigit && c2.isDigit
   | _ => false) &&
  !(amountQ a = 0)

/-- A structured retailer section: heading, then `pre` body lines, then
the `TOTAL: $amount` line, then `post` body lines. -/
structure RSection where
  name : List Char
  amount : List Char
  pre : List (List Char)
  post : List (List Char)

/-- The lines of a rendered retailer section. -/
def renderSection (s : RSection) : List (List Char) :=
  headingLineOf s.name :: (s.pre ++ (totalLineOf s.amount :: s.post))

/-- The lines of a rendered report: the sections' lines in order. -/
def renderReport (sections : List RSection) : List (List Char) :=
  (sections.map renderSection).flatten

/-- A body line that is neither a bolded heading nor a TOTAL line (it may
be any of the other cue lines — Base Price, Tax, Shipping, URL, Cashback,
Credit Card — or free text). -/
def neutralLine (l : List Char) : Bool :=
  match classifyLine (pyStrip l) with
  | .heading => false
  | .totalLine => false
  | _ => true

/-- A well-formed retailer section: printable name, well-formed nonzero
amount, and body lines that neither start a new section nor carry a
second TOTAL. -/
def goodSection (s : RSection) : Prop :=
  goodName s.name = true ∧ goodAmount s.amount = true ∧
  (∀ l ∈ s.pre, neutralLine l = true) ∧ (∀ l ∈ s.post, neutralLine l = true)

instance (s : RSection) : Decidable (goodSection s) := by
  unfold goodSection; infer_instance

/-- The (retailer, total price) view of a stored record. -/
def recPair (r : PriceRecord) : List Char × ℚ := (r.retailer, r.total_price)

/-- The (retailer, total price) pair a well-formed section should yield. -/
def sectionPair (s : RSection) : List Char × ℚ := (s.name, amountQ s.amount)

/-- The row invariant of C10: a stored record has a strictly positive
total and nonnegative base price, tax and shipping. -/
def RecordOk (r : PriceRecord) : Prop :=
  0 < r.total_price ∧ 0 ≤ r.base_price ∧ 0 ≤ r.tax ∧ 0 ≤ r.shipping

/-- The loop invariant of `_store_price_data`: all saved records satisfy
`RecordOk`, an accumulated total is nonzero (hence positive), and the
other accumulated numeric fields are nonnegative. -/
def StateOk (st : ParseState) : Prop :=
  (∀ r ∈ st.records, RecordOk r) ∧
  (∀ q, st.data.total_price = some q → 0 < q) ∧
  (∀ q, st.data.base_price = some q → 0 ≤ q) ∧
  (∀ q, st.data.tax = some q → 0 ≤ q) ∧
  (∀ q, st.data.shipping = some q → 0 ≤ q)

/-! ## C1 — duration auto-stop -/

/-- C1 (counterexample): the claim says a session started with
`durationHours = 0` completes after at most one tick without an explicit
stop.  In the source the duration check is guarded by `if duration_hours:`
and `0` is falsy in Python, so with `duration_hours = 0`, no stop request,
and any elapsed-time history, the loop performs two ticks in two
iterations and is still running — it never auto-stops. -/
theorem c1_zero_duration_counterexample :
    trackLoop (some 0) (fun _ => false) (fun i => (i : ℚ)) 0 2 = (2, false) := by
  decide

/-- C1 (amended): duration auto-stop works only for a *nonzero*
`durationHours`: if `d ≠ 0` and the elapsed time observed at the top of
iteration `i` has reached `d`, the loop exits at that iteration with no
further tick (the check precedes the search call).  `durationHours = 0`
is treated exactly like `None` (no duration limit) because of Python
truthiness. -/
theorem c1_duration_auto_stop (d : ℚ) (stop : ℕ → Bool) (elapsed : ℕ → ℚ)
    (i fuel : ℕ) (hd : d ≠ 0) (hfuel : 1 ≤ fuel) (helapsed : d ≤ elapsed i) :
    trackLoop (some d) stop elapsed i fuel = (0, true) ∧
    (∀ (stop' : ℕ → Bool) (elapsed' : ℕ → ℚ) (j fuel' : ℕ),
      trackLoop (some 0) stop' elapsed' j fuel' =
        trackLoop none stop' elapsed' j fuel') := by
  constructor
  · obtain ⟨f, rfl⟩ : ∃ f, fuel = f + 1 := ⟨fuel - 1, by omega⟩
    have hfire : durationCheckFires (some d) (elapsed i) = true := by
      simp [durationCheckFires, hd, helapsed]
    cases hstop : stop i <;> simp [trackLoop, hstop, hfire]
  · intro stop' elapsed' j fuel'
    induction fuel' generalizing j with
    | zero => rfl
    | succ f ih =>
      simp only [trackLoop, durationCheckFires, if_pos rfl]
      cases hstop : stop' j <;> simp [hstop, ih]

/-- C1 witness: a 1-hour limit with 2 hours elapsed stops before the
first tick. -/
theorem c1_duration_auto_stop_witness :
    trackLoop (some 1) (fun _ => false) (fun _ => (2 : ℚ)) 0 1 = (0, true) :=
  (c1_duration_auto_stop 1 (fun _ => false) (fun _ => (2 : ℚ)) 0 1
    (by norm_num) (by norm_num) (by norm_num)).1

/-! ## C2 — persisted session schema -/

/-- C2 (counterexample): the claim says the sessions table has a
`duration_limit` column and that session creation persists the requested
duration limit.  In `_init_database` no column of `tracking_sessions`
mentions a duration at all, and the `start_tracking` INSERT names only
`product_query`, `interval_minutes`, `status`. -/
theorem c2_schema_counterexample :
    "duration_limit" ∉ trackingSessionsColumns ∧
    trackingSessionsColumns.all
      (fun c => !(subIn "duration".toList c.toList)) = true ∧
    "duration_limit" ∉ startTrackingInsertColumns := by
  decide

/-- C2 (amended): the `tracking_sessions` schema stores id, query, start,
end, interval and status but no duration-limit column, and
`start_tracking` persists only `(product_query, interval_minutes,
'active')` — the row it inserts is independent of the requested
`duration_hours`, which lives only in the in-memory thread arguments. -/
theorem c2_session_persistence (q : String) (i : ℤ) (dh : Option ℤ) :
    trackingSessionsColumns =
      ["id", "product_query", "start_time", "end_time", "interval_minutes",
       "status"] ∧
    startTrackingInsertColumns = ["product_query", "interval_minutes", "status"] ∧
    startTrackingInsertValues q i dh = (q, i, "active") ∧
    startTrackingInsertValues q i dh = startTrackingInsertValues q i none :=
  ⟨rfl, rfl, rfl, rfl⟩

/-! ## C3 — alert threshold -/

/-- C3: for a retailer with at least two stored observations (newest
first; stored prices are nonnegative, see the C10 invariant), with a
nonzero old price the detector records the alert
`(old, new, (new-old)/old*100)` exactly when `|pct| ≥ 5`, and skips the
comparison when the old price is 0.  Concretely, $100.00 then $94.00
yields the alert with pct = −6 and $100.00 then $96.00 yields none. -/
theorem c3_alert_threshold (newP oldP : ℚ) (rest : List ℚ) (h0 : 0 ≤ oldP) :
    (oldP ≠ 0 →
      checkRetailerAlert (newP :: oldP :: rest) =
        (if |(newP - oldP) / oldP * 100| ≥ 5 then
          some (oldP, newP, (newP - oldP) / oldP * 100) else none)) ∧
    (oldP = 0 → checkRetailerAlert (newP :: oldP :: rest) = none) ∧
    checkRetailerAlert [94, 100] = some (100, 94, -6) ∧
    checkRetailerAlert [96, 100] = none := by
  refine ⟨?_, ?_, ?_, ?_⟩
  · intro hne
    have hpos : oldP > 0 := lt_of_le_of_ne h0 (Ne.symm hne)
    simp [checkRetailerAlert, hpos]
  · intro h
    simp [checkRetailerAlert, h]
  · have h6 : |((94 : ℚ) - 100) / 100 * 100| ≥ 5 := by norm_num
    simp [checkRetailerAlert, h6]
    norm_num
  · have h4 : ¬ |((96 : ℚ) - 100) / 100 * 100| ≥ 5 := by norm_num
    simp [checkRetailerAlert]
    norm_num

/-- C3 witness: the two-observation $100 → $94 session records an alert
with pct = −6. -/
theorem c3_alert_threshold_witness :
    checkRetailerAlert [94, 100] = some (100, 94, -6) :=
  (c3_alert_threshold 94 100 [] (by norm_num)).2.2.1

/-! ## C7 — cancellation latency during the sleep phase -/

/-- C7 (counterexample): the claim says the sleep phase polls the stop
signal at *sub-second* granularity.  The wait loop's sleep call is
`time.sleep(1)`: the polling period is exactly 1000 ms, not less. -/
theorem c7_subsecond_counterexample :
    pollPeriodMs = 1000 ∧ ¬ pollPeriodMs < 1000 := by
  decide

/-- C7 (amended): the inter-tick wait sleeps in one-second increments,
checking the stop flag before each sleep, so once the flag is set (from
the `k`-th check of the wait onward) at most `k` one-second sleeps happen
in total — i.e. no further sleep follows the check that observes the
flag, bounding exit latency by the one-second polling period rather than
the full interval; and the flag is also checked at the top of each loop
iteration, where it ends the loop with no further tick. -/
theorem c7_stop_latency (flag : ℕ → Bool) (j k fuel : ℕ)
    (hk : flag (j + k) = true) :
    waitLoopSleeps flag j fuel ≤ k ∧
    pollPeriodMs = 1000 ∧
    (∀ (dh : Option ℚ) (stop : ℕ → Bool) (elapsed : ℕ → ℚ) (i f : ℕ),
      stop i = true → trackLoop dh stop elapsed i (f + 1) = (0, true)) := by
  refine ⟨?_, rfl, ?_⟩
  · induction fuel generalizing j k with
    | zero => exact Nat.zero_le k
    | succ f ih =>
      by_cases hj : flag j = true
      · simp [waitLoopSleeps, hj]
      · cases k with
        | zero => simp only [Nat.add_zero] at hk; exact absurd hk hj
        | succ k' =>
          have : flag (j + 1 + k') = true := by
            have : j + 1 + k' = j + (k' + 1) := by omega
            rw [this]; exact hk
          have := ih (j + 1) k' this
          simp [waitLoopSleeps, hj]
          omega
  · intro dh stop elapsed i f hstop
    simp [trackLoop, hstop]

/-- C7 witness: with the stop flag raised from the third check on, a
2-minute wait performs at most two one-second sleeps. -/
theorem c7_stop_latency_witness :
    waitLoopSleeps (fun m => decide (2 ≤ m)) 0 120 ≤ 2 :=
  (c7_stop_latency (fun m => decide (2 ≤ m)) 0 2 120 (by decide)).1

/-! ## C8 — stop/stats/summary on unknown session ids -/

/-- C8: `stop_tracking` returns `False` exactly when the id is not a key
of the in-memory `active_sessions` registry; when it is registered, it
returns `True` having set that session's stop flag; and `get_statistics`
/ `get_summary` on an id absent from the sessions table return the
non-fatal "not found" report rather than raising (both are total
functions of the table). -/
theorem c8_unknown_session (reg : List (ℕ × ActiveEntry)) (sid : ℕ)
    (sessions : List SessionRow) :
    ((stopTracking reg sid).1 = false ↔ sid ∉ reg.map Prod.fst) ∧
    (sid ∈ reg.map Prod.fst →
      (stopTracking reg sid).1 = true ∧
      ∀ p ∈ (stopTracking reg sid).2, p.1 = sid → p.2.stop_flag = true) ∧
    (sid ∉ sessions.map SessionRow.id →
      getStatistics sessions sid = .notFound ∧
      getSummary sessions sid = .notFound) := by
  refine ⟨?_, ?_, ?_⟩
  · by_cases h : sid ∈ reg.map Prod.fst <;> simp [stopTracking, h]
  · intro h
    refine ⟨by simp [stopTracking, h], ?_⟩
    intro p hp hpid
    simp only [stopTracking] at hp
    rw [if_pos (by simpa using h)] at hp
    simp only [List.mem_map] at hp
    obtain ⟨q, _, rfl⟩ := hp
    by_cases hq : q.1 = sid <;> simp [hq] at hpid ⊢
  · intro h
    have hfind : sessions.find? (fun s => s.id = sid) = none := by
      rw [List.find?_eq_none]
      intro x hx
      simp only [decide_eq_true_eq]
      intro hxe
      exact h (List.mem_map.mpr ⟨x, hx, hxe⟩)
    exact ⟨by simp [getStatistics, hfind], by simp [getSummary, hfind]⟩

/-- C8 witness: stopping session 3 (registered) succeeds; statistics for
the unknown session 2 report "not found". -/
theorem c8_unknown_session_witness :
    (stopTracking [(3, ⟨false, "PlayStation 5", 60⟩)] 3).1 = true ∧
    getStatistics [⟨1, "PlayStation 5", "active"⟩] 2 = .notFound := by
  refine ⟨((c8_unknown_session [(3, ⟨false, "PlayStation 5", 60⟩)] 3
      [⟨1, "PlayStation 5", "active"⟩]).2.1 (by decide)).1,
    ((c8_unknown_session [(3, ⟨false, "PlayStation 5", 60⟩)] 3
      [⟨1, "PlayStation 5", "active"⟩]).2.2 (by decide)).1⟩

/-! ## String-primitive lemmas -/

theorem startsWithL_mem {n h : List Char} (hs : startsWithL n h = true) :
    ∀ c ∈ n, c ∈ h := by
  induction n generalizing h with
  | nil => simp
  | cons a as ih =>
    cases h with
    | nil => simp [startsWithL] at hs
    | cons b bs =>
      simp only [startsWithL, Bool.and_eq_true, decide_eq_true_eq] at hs
      obtain ⟨rfl, h2⟩ := hs
      intro c hc
      rcases List.mem_cons.mp hc with rfl | hc
      · exact List.mem_cons_self _ _
      · exact List.mem_cons_of_mem _ (ih h2 c hc)

theorem subIn_mem {n h : List Char} (hs : subIn n h = true) : ∀ c ∈ n, c ∈ h := by
  induction h with
  | nil =>
    intro c hc
    simp only [subIn, List.isEmpty_iff] at hs
    subst hs
    simp at hc
  | cons b bs ih =>
    simp only [subIn, Bool.or_eq_true] at hs
    rcases hs with hs | hs
    · exact startsWithL_mem hs
    · intro c hc
      exact List.mem_cons_of_mem _ (ih hs c hc)

/-- A substring test fails when some character of the needle is missing
from the haystack. -/
theorem subIn_eq_false {n h : List Char} (c : Char) (hcn : c ∈ n)
    (hch : c ∉ h) : subIn n h = false := by
  cases hsub : subIn n h
  · rfl
  · exact absurd (subIn_mem hsub c hcn) hch

theorem dropWhile_append_of_all {p : Char → Bool} {a b : List Char}
    (ha : ∀ c ∈ a, p c = true) : (a ++ b).dropWhile p = b.dropWhile p := by
  induction a with
  | nil => rfl
  | cons x xs ih =>
    have hx : p x = true := ha x (List.mem_cons_self _ _)
    simp only [List.cons_append, List.dropWhile_cons, hx, if_true]
    exact ih fun c hc => ha c (List.mem_cons_of_mem _ hc)

theorem dropWhile_cons_of_neg {p : Char → Bool} {x : Char} {xs : List Char}
    (hx : p x = false) : (x :: xs).dropWhile p = x :: xs := by
  simp [List.dropWhile_cons, hx]

/-- `strip`-style edge trimming recovers the middle part exactly when the
trimmed characters flank it and its own edges are not trimmable. -/
theorem dropEdges_wrap {p : Char → Bool} (pre m suf : List Char)
    (hpre : ∀ c ∈ pre, p c = true) (hsuf : ∀ c ∈ suf, p c = true)
    (hm : m ≠ [])
    (hhead : ∀ c, m.head? = some c → p c = false)
    (hlast : ∀ c, m.reverse.head? = some c → p c = false) :
    dropEdges p (pre ++ m ++ suf) = m := by
  obtain ⟨x, xs, rfl⟩ := List.exists_cons_of_ne_nil hm
  obtain ⟨y, ys, hyrev⟩ :=
    List.exists_cons_of_ne_nil (l := (x :: xs).reverse) (by simp)
  have hx : p x = false := hhead x rfl
  have hy : p y = false := hlast y (by rw [hyrev]; rfl)
  unfold dropEdges
  rw [List.append_assoc, dropWhile_append_of_all hpre,
    show (x :: xs) ++ suf = x :: (xs ++ suf) from rfl,
    dropWhile_cons_of_neg hx,
    show (x :: (xs ++ suf)).reverse = suf.reverse ++ (x :: xs).reverse by simp,
    dropWhile_append_of_all (fun c hc => hsuf c (List.mem_reverse.mp hc)),
    hyrev, dropWhile_cons_of_neg hy, ← hyrev, List.reverse_reverse]

/-- Special case: trimming is the identity on a list whose two edges are
not trimmable. -/
theorem dropEdges_eq_self {p : Char → Bool} (m : List Char) (hm : m ≠ [])
    (hhead : ∀ c, m.head? = some c → p c = false)
    (hlast : ∀ c, m.reverse.head? = some c → p c = false) :
    dropEdges p m = m := by
  have h := dropEdges_wrap [] m [] (by simp) (by simp) hm hhead hlast
  simpa using h

theorem drop_length_takeWhile (p : Char → Bool) (l : List Char) :
    l.drop (l.takeWhile p).length = l.dropWhile p := by
  induction l with
  | nil => rfl
  | cons x xs ih =>
    by_cases hx : p x = true
    · simp [List.takeWhile_cons, List.dropWhile_cons, hx, ih]
    · rw [Bool.not_eq_true] at hx
      simp [List.takeWhile_cons, List.dropWhile_cons, hx]

/-- `takeWhile` stops exactly at the first failing element. -/
theorem takeWhile_append_stop {p : Char → Bool} {ds rest : List Char} {q : Char}
    (h : ∀ c ∈ ds, p c = true) (hq : p q = false) :
    (ds ++ q :: rest).takeWhile p = ds := by
  induction ds with
  | nil => simp [List.takeWhile_cons, hq]
  | cons x xs ih =>
    have hx := h x (List.mem_cons_self _ _)
    simp [List.takeWhile_cons, hx, ih fun c hc => h c (List.mem_cons_of_mem _ hc)]

/-- `toLower` is the identity on digits, separators and the dot. -/
theorem toLower_amountChar {c : Char} (h : amountChar c = true) :
    c.toLower = c := by
  simp only [amountChar, Bool.or_eq_true, decide_eq_true_eq] at h
  rcases h with (h | rfl) | rfl
  · have h57 : c.val ≤ (57 : UInt32) := of_decide_eq_true (Bool.and_eq_true .. ▸ h).2
    have hn : c.toNat ≤ 57 := by
      have := UInt32.le_def.mp h57
      simpa [Char.toNat] using this
    unfold Char.toLower
    have : ¬(c.toNat ≥ 65 ∧ c.toNat ≤ 90) := by omega
    simp [this]
  · rfl
  · rfl

/-! ## Heading-line lemmas -/

theorem goodName_spec {n : List Char} (h : goodName n = true) :
    ∃ x xs y ys, n = x :: xs ∧ n.reverse = y :: ys ∧
      x ≠ '*' ∧ pySpace x = false ∧ y ≠ '*' ∧ pySpace y = false := by
  have hne : n ≠ [] := by
    intro he
    rw [he] at h
    exact absurd h (by decide)
  obtain ⟨x, xs, rfl⟩ := List.exists_cons_of_ne_nil hne
  obtain ⟨y, ys, hyrev⟩ :=
    List.exists_cons_of_ne_nil (l := (x :: xs).reverse) (by simp)
  simp only [goodName, Bool.and_eq_true] at h
  rw [hyrev] at h
  simp only [List.headD_cons, cleanEdge, Bool.and_eq_true, Bool.not_eq_true',
    decide_eq_false_iff_not] at h
  exact ⟨x, xs, y, ys, rfl, hyrev, h.1.1, h.1.2, h.2.1, h.2.2⟩

/-- The rendered heading line is already stripped: its edges are `*`. -/
theorem pyStrip_headingLineOf (n : List Char) :
    pyStrip (headingLineOf n) = headingLineOf n := by
  unfold pyStrip
  apply dropEdges_eq_self
  · simp [headingLineOf, star2]
  · intro c hc
    simp only [headingLineOf, star2] at hc
    simp only [List.cons_append, List.head?_cons, Option.some.injEq] at hc
    subst hc
    decide
  · intro c hc
    simp only [headingLineOf, star2, List.reverse_append, List.reverse_cons,
      List.reverse_nil, List.nil_append, List.cons_append, List.append_assoc,
      List.head?_cons, Option.some.injEq] at hc
    subst hc
    decide

/-- Any rendered heading line is classified as a heading, whatever the
name between the asterisks. -/
theorem classify_headingLineOf (n : List Char) :
    classifyLine (headingLineOf n) = .heading := by
  have h1 : startsWithL star2 (headingLineOf n) = true := by
    simp [headingLineOf, star2, startsWithL]
  have h2 : endsWithL star2 (headingLineOf n) = true := by
    have : (headingLineOf n).reverse = '*' :: '*' :: (n.reverse ++ ['*', '*']) := by
      simp [headingLineOf, star2]
    simp [endsWithL, star2, this, startsWithL]
  simp [classifyLine, isHeadingLine, h1, h2]

/-- Processing a heading line: flush the previous section, then reset
with the new retailer. -/
theorem processLineL_heading (st : ParseState) (n : List Char) :
    processLineL st (headingLineOf n) =
      ⟨some (pyStrip (dropStars (headingLineOf n))), {}, flushRecords st⟩ := by
  unfold processLineL
  simp only [pyStrip_headingLineOf, classify_headingLineOf]

/-- A printable name is recovered exactly from its heading line by
`strip('*').strip()`. -/
theorem heading_retailer {n : List Char} (h : goodName n = true) :
    pyStrip (dropStars (headingLineOf n)) = n := by
  obtain ⟨x, xs, y, ys, hn, hyrev, hx1, hx2, hy1, hy2⟩ := goodName_spec h
  subst hn
  have hstars : dropStars (headingLineOf (x :: xs)) = x :: xs := by
    unfold dropStars headingLineOf star2
    apply dropEdges_wrap
    · intro c hc; simp only [List.mem_cons, List.not_mem_nil, or_false] at hc
      rcases hc with rfl | rfl <;> decide
    · intro c hc; simp only [List.mem_cons, List.not_mem_nil, or_false] at hc
      rcases hc with rfl | rfl <;> decide
    · simp
    · intro c hc
      simp only [List.head?_cons, Option.some.injEq] at hc
      subst hc
      simpa using hx1
    · intro c hc
      rw [hyrev] at hc
      simp only [List.head?_cons, Option.some.injEq] at hc
      subst hc
      simpa using hy1
  rw [hstars]
  unfold pyStrip
  apply dropEdges_eq_self
  · simp
  · intro c hc
    simp only [List.head?_cons, Option.some.injEq] at hc
    subst hc
    exact hx2
  · intro c hc
    rw [hyrev] at hc
    simp only [List.head?_cons, Option.some.injEq] at hc
    subst hc
    exact hy2

/-- Processing a well-formed heading: the new retailer is the name. -/
theorem processLineL_heading_good (st : ParseState) {n : List Char}
    (h : goodName n = true) :
    processLineL st (headingLineOf n) = ⟨some n, {}, flushRecords st⟩ := by
  rw [processLineL_heading, heading_retailer h]

/-! ## Neutral body lines -/

/-- A line that is neither a heading nor a TOTAL line never touches the
saved records, the current retailer, or the accumulated total price —
whatever cue it matches, it only sets one of the other fields. -/
theorem processLineL_neutral (st : ParseState) {l : List Char}
    (h : neutralLine l = true) :
    (processLineL st l).records = st.records ∧
    (processLineL st l).current_retailer = st.current_retailer ∧
    (processLineL st l).data.total_price = st.data.total_price := by
  unfold neutralLine at h
  unfold processLineL
  cases hcl : classifyLine (pyStrip l) with
  | heading => rw [hcl] at h; simp at h
  | totalLine => rw [hcl] at h; simp at h
  | basePriceLine =>
    simp only [hcl]
    cases he : extractPrice (pyStrip l) with
    | none => exact ⟨rfl, rfl, rfl⟩
    | some p =>
      by_cases hp : p ≠ 0 <;> simp [hp]
  | taxLine =>
    simp only [hcl]
    cases he : extractPrice (pyStrip l) with
    | none => exact ⟨rfl, rfl, rfl⟩
    | some p =>
      by_cases hp : p ≠ 0 <;> simp [hp]
  | shippingLine =>
    simp only [hcl]
    by_cases hf : subIn "free".toList (toLowerList (pyStrip l)) = true
    · rw [if_pos hf]
      exact ⟨rfl, rfl, rfl⟩
    · rw [if_neg hf]
      cases he : extractPrice (pyStrip l) with
      | none => exact ⟨rfl, rfl, rfl⟩
      | some p =>
        by_cases hp : p ≠ 0 <;> simp [hp]
  | urlLine => simp [hcl]
  | cashbackLine => simp [hcl]
  | cardLine => simp [hcl]
  | other => simp [hcl]

/-- Folding any block of neutral lines preserves records, retailer and
total. -/
theorem foldl_neutral {body : List (List Char)} (st : ParseState)
    (h : ∀ l ∈ body, neutralLine l = true) :
    (body.foldl processLineL st).records = st.records ∧
    (body.foldl processLineL st).current_retailer = st.current_retailer ∧
    (body.foldl processLineL st).data.total_price = st.data.total_price := by
  induction body generalizing st with
  | nil => exact ⟨rfl, rfl, rfl⟩
  | cons x xs ih =>
    have hx := processLineL_neutral st (h x (List.mem_cons_self _ _))
    have hxs := ih (processLineL st x)
      (fun l hl => h l (List.mem_cons_of_mem _ hl))
    exact ⟨hxs.1.trans hx.1, hxs.2.1.trans hx.2.1, hxs.2.2.trans hx.2.2⟩

/-! ## TOTAL-line lemmas -/

theorem regexSearchNum_cons_skip {c : Char} (rest : List Char)
    (h1 : isDigitOrComma c = false) (h2 : c ≠ '$') :
    regexSearchNum (c :: rest) = regexSearchNum rest := by
  simp [regexSearchNum, h1, h2]

theorem regexSearchNum_dollar {d : Char} (rest : List Char)
    (hd : isDigitOrComma d = true) :
    regexSearchNum ('$' :: d :: rest) = some (numTail (d :: rest)) := by
  have hds : isDigitOrComma '$' = false := by decide
  simp [regexSearchNum, hds, hd]

theorem goodAmount_spec {a : List Char} (h : goodAmount a = true) :
    ∃ ds c1 c2, a = ds ++ ['.', c1, c2] ∧ ds ≠ [] ∧
      (∀ c ∈ ds, isDigitOrComma c = true) ∧
      c1.isDigit = true ∧ c2.isDigit = true ∧ amountQ a ≠ 0 := by
  have hdecomp := List.takeWhile_append_dropWhile isDigitOrComma a
  simp only [goodAmount, Bool.and_eq_true] at h
  obtain ⟨⟨hne, hmatch⟩, hval⟩ := h
  rw [drop_length_takeWhile] at hmatch
  split at hmatch
  · next c1 c2 heq =>
    refine ⟨a.takeWhile isDigitOrComma, c1, c2, ?_, ?_, ?_, ?_, ?_, ?_⟩
    · rw [← heq]; exact hdecomp.symm
    · intro he
      rw [he] at hne
      simp at hne
    · exact fun c hc => List.mem_takeWhile_imp hc
    · exact (Bool.and_eq_true .. ▸ hmatch).1
    · exact (Bool.and_eq_true .. ▸ hmatch).2
    · simpa using hval
  · exact absurd hmatch (by simp)

theorem goodAmount_chars {a : List Char} (h : goodAmount a = true) :
    ∀ c ∈ a, amountChar c = true := by
  obtain ⟨ds, c1, c2, rfl, _, hds, h1, h2, _⟩ := goodAmount_spec h
  intro c hc
  rcases List.mem_append.mp hc with hc | hc
  · have hd := hds c hc
    simp only [isDigitOrComma, Bool.or_eq_true] at hd
    simp only [amountChar, Bool.or_eq_true]
    tauto
  · simp only [List.mem_cons, List.not_mem_nil, or_false] at hc
    rcases hc with rfl | rfl | rfl
    · decide
    · simp [amountChar, h1]
    · simp [amountChar, h2]

theorem numTail_goodAmount {ds : List Char} (c1 c2 : Char)
    (hds : ∀ c ∈ ds, isDigitOrComma c = true) (h1 : c1.isDigit = true)
    (h2 : c2.isDigit = true) :
    numTail (ds ++ ['.', c1, c2]) = ds ++ ['.', c1, c2] := by
  have htw : (ds ++ ['.', c1, c2]).takeWhile isDigitOrComma = ds :=
    takeWhile_append_stop hds (by decide)
  simp only [numTail, htw, List.drop_left]
  simp [List.takeWhile_cons, h1, h2]

theorem pySpace_eq_false_of_digit {c : Char} (h : c.isDigit = true) :
    pySpace c = false := by
  cases hs : pySpace c
  · rfl
  · simp only [pySpace, Bool.or_eq_true, decide_eq_true_eq] at hs
    rcases hs with ((((rfl | rfl) | rfl) | rfl) | rfl) | rfl <;>
      exact absurd h (by decide)

theorem digit_ne_comma {c : Char} (h : c.isDigit = true) : c ≠ ',' := by
  intro he
  rw [he] at h
  exact absurd h (by decide)

theorem filter_ne_comma_dot_frac {c1 c2 : Char} (h1 : c1.isDigit = true)
    (h2 : c2.isDigit = true) :
    List.filter (fun c => c ≠ ',') ['.', c1, c2] = ['.', c1, c2] := by
  have d1 := digit_ne_comma h1
  have d2 := digit_ne_comma h2
  simp [List.filter, d1, d2]

theorem filter_digits_of_digitOrComma {ds : List Char}
    (h : ∀ c ∈ ds, isDigitOrComma c = true) :
    ∀ c ∈ ds.filter (fun c => c ≠ ','), c.isDigit = true := by
  intro c hc
  have hmem := List.mem_of_mem_filter hc
  have hne : c ≠ ',' := by simpa using List.of_mem_filter hc
  have hd := h c hmem
  simp only [isDigitOrComma, Bool.or_eq_true, decide_eq_true_eq] at hd
  tauto

theorem pyFloat_digits_frac {ip : List Char} (c1 c2 : Char)
    (hip : ∀ c ∈ ip, Char.isDigit c = true) (h1 : c1.isDigit = true)
    (h2 : c2.isDigit = true) :
    pyFloat (ip ++ ['.', c1, c2]) =
      some (mkRat (digitsVal ip * 100 + digitsVal [c1, c2]) 100) := by
  have htw : (ip ++ ['.', c1, c2]).takeWhile Char.isDigit = ip :=
    takeWhile_append_stop hip (by decide)
  simp only [pyFloat, htw, List.drop_left]
  simp [h1, h2]

theorem extractPrice_totalLineOf {a : List Char} (h : goodAmount a = true) :
    extractPrice (totalLineOf a) = some (amountQ a) ∧ amountQ a ≠ 0 := by
  obtain ⟨ds, c1, c2, ha, hne, hds, h1, h2, hval⟩ := goodAmount_spec h
  obtain ⟨x, xs', hx⟩ := List.exists_cons_of_ne_nil hne
  have hax : a = x :: (xs' ++ ['.', c1, c2]) := by rw [ha, hx]; rfl
  have hdx : isDigitOrComma x = true := hds x (by rw [hx]; exact List.mem_cons_self _ _)
  have hsplit : totalLineOf a =
      'T' :: 'O' :: 'T' :: 'A' :: 'L' :: ':' :: ' ' :: '$' :: x :: (xs' ++ ['.', c1, c2]) := by
    rw [show totalLineOf a = "TOTAL: $".toList ++ a from rfl, hax]
    rfl
  have hsearch : regexSearchNum (totalLineOf a) = some (numTail a) := by
    rw [hsplit]
    rw [regexSearchNum_cons_skip _ (by decide) (by decide),
      regexSearchNum_cons_skip _ (by decide) (by decide),
      regexSearchNum_cons_skip _ (by decide) (by decide),
      regexSearchNum_cons_skip _ (by decide) (by decide),
      regexSearchNum_cons_skip _ (by decide) (by decide),
      regexSearchNum_cons_skip _ (by decide) (by decide),
      regexSearchNum_cons_skip _ (by decide) (by decide),
      regexSearchNum_dollar _ hdx, ← hax]
  have hnum : numTail a = a := by
    rw [ha]
    exact numTail_goodAmount c1 c2 hds h1 h2
  have hfloat : pyFloat (a.filter (fun c => c ≠ ',')) =
      some (mkRat (digitsVal (ds.filter (fun c => c ≠ ',')) * 100 +
        digitsVal [c1, c2]) 100) := by
    rw [ha, List.filter_append, filter_ne_comma_dot_frac h1 h2]
    exact pyFloat_digits_frac c1 c2 (filter_digits_of_digitOrComma hds) h1 h2
  have hQ : amountQ a = mkRat (digitsVal (ds.filter (fun c => c ≠ ',')) * 100 +
      digitsVal [c1, c2]) 100 := by
    unfold amountQ
    rw [hfloat]
    rfl
  refine ⟨?_, hval⟩
  unfold extractPrice
  rw [hsearch, hnum]
  show pyFloat (a.filter (fun c => c ≠ ',')) = some (amountQ a)
  rw [hfloat, hQ]

theorem not_mem_totalLineOf {a : List Char} (hch : ∀ c ∈ a, amountChar c = true)
    (c₀ : Char) (hpre : c₀ ∉ "TOTAL: $".toList) (hac : amountChar c₀ = false) :
    c₀ ∉ totalLineOf a := by
  intro hmem
  rcases List.mem_append.mp hmem with hm | hm
  · exact hpre hm
  · rw [hch c₀ hm] at hac
    exact absurd hac (by simp)

theorem not_mem_lower_totalLineOf {a : List Char}
    (hch : ∀ c ∈ a, amountChar c = true) (c₀ : Char)
    (hpre : c₀ ∉ toLowerList "TOTAL: $".toList) (hac : amountChar c₀ = false) :
    c₀ ∉ toLowerList (totalLineOf a) := by
  intro hmem
  rw [show totalLineOf a = "TOTAL: $".toList ++ a from rfl] at hmem
  unfold toLowerList at hmem
  rw [List.map_append] at hmem
  rcases List.mem_append.mp hmem with hm | hm
  · exact hpre hm
  · obtain ⟨c, hc, hceq⟩ := List.mem_map.mp hm
    rw [toLower_amountChar (hch c hc)] at hceq
    subst hceq
    exact absurd (hch c hc) (by simp [hac])

/-- The rendered TOTAL line is already stripped: it starts with `T` and
ends with a digit. -/
theorem pyStrip_totalLineOf {a : List Char} (h : goodAmount a = true) :
    pyStrip (totalLineOf a) = totalLineOf a := by
  obtain ⟨ds, c1, c2, ha, _, _, _, h2, _⟩ := goodAmount_spec h
  have hrev : (totalLineOf a).reverse =
      c2 :: (c1 :: '.' :: (ds.reverse ++ "TOTAL: $".toList.reverse)) := by
    rw [show totalLineOf a = "TOTAL: $".toList ++ a from rfl, ha]
    simp
  unfold pyStrip
  apply dropEdges_eq_self
  · rw [show totalLineOf a = "TOTAL: $".toList ++ a from rfl]
    simp
  · intro c hc
    rw [show totalLineOf a = 'T' :: ("OTAL: $".toList ++ a) from rfl] at hc
    simp only [List.head?_cons, Option.some.injEq] at hc
    subst hc
    decide
  · intro c hc
    rw [hrev] at hc
    simp only [List.head?_cons, Option.some.injEq] at hc
    subst hc
    exact pySpace_eq_false_of_digit h2

/-- The rendered TOTAL line falls through the earlier cues of the `elif`
chain and is classified as a TOTAL line. -/
theorem classify_totalLineOf {a : List Char} (h : goodAmount a = true) :
    classifyLine (totalLineOf a) = .totalLine := by
  have hch := goodAmount_chars h
  have hhd : isHeadingLine (totalLineOf a) = false := by
    have hsw : startsWithL star2 (totalLineOf a) = false := by
      rw [show totalLineOf a = 'T' :: ("OTAL: $".toList ++ a) from rfl]
      simp [startsWithL, star2]
    simp [isHeadingLine, hsw]
  have hbase : hasBaseCue (totalLineOf a) = false := by
    unfold hasBaseCue
    rw [subIn_eq_false 'B' (by decide)
        (not_mem_totalLineOf hch 'B' (by decide) (by decide)),
      subIn_eq_false 'b' (by decide)
        (not_mem_lower_totalLineOf hch 'b' (by decide) (by decide))]
    rfl
  have htax : hasTaxCue (totalLineOf a) = false := by
    unfold hasTaxCue
    rw [subIn_eq_false 'a' (by decide)
        (not_mem_totalLineOf hch 'a' (by decide) (by decide))]
    rfl
  have hship : hasShipCue (totalLineOf a) = false := by
    unfold hasShipCue
    rw [subIn_eq_false 'h' (by decide)
        (not_mem_totalLineOf hch 'h' (by decide) (by decide)),
      subIn_eq_false 'h' (by decide)
        (not_mem_lower_totalLineOf hch 'h' (by decide) (by decide))]
    rfl
  have htot : hasTotalCue (totalLineOf a) = true := by
    have hsw : subIn "TOTAL:".toList (totalLineOf a) = true := by
      rw [show totalLineOf a =
        'T' :: 'O' :: 'T' :: 'A' :: 'L' :: ':' :: (' ' :: '$' :: a) from rfl]
      simp [subIn, startsWithL]
    unfold hasTotalCue
    rw [hsw]
    rfl
  simp [classifyLine, hhd, hbase, htax, hship, htot]

/-- Processing the TOTAL line of a well-formed nonzero amount sets the
accumulated total price to that amount and changes nothing else. -/
theorem processLineL_totalLineOf (st : ParseState) {a : List Char}
    (h : goodAmount a = true) :
    processLineL st (totalLineOf a) =
      { st with data := { st.data with total_price := some (amountQ a) } } := by
  obtain ⟨hex, hval⟩ := extractPrice_totalLineOf h
  unfold processLineL
  simp only [pyStrip_totalLineOf h, classify_totalLineOf h, hex, hval,
    ne_eq, not_false_eq_true, if_true]

/-! ## Whole-section lemmas -/

theorem goodName_ne_nil {n : List Char} (h : goodName n = true) : n ≠ [] := by
  intro he
  rw [he] at h
  exact absurd h (by decide)

theorem goodAmount_ne_zero {a : List Char} (h : goodAmount a = true) :
    amountQ a ≠ 0 := by
  obtain ⟨_, _, _, _, _, _, _, _, hv⟩ := goodAmount_spec h
  exact hv

/-- When both truthiness tests pass, the end-of-section flush appends
exactly one record for the current retailer. -/
theorem flushRecords_of_truthy {st : ParseState} {r : List Char} {t : ℚ}
    (hc : st.current_retailer = some r) (ht : st.data.total_price = some t)
    (hr : r ≠ []) (ht0 : t ≠ 0) :
    flushRecords st = st.records ++ [mkRecord r st.data] := by
  unfold flushRecords
  rw [hc, ht]
  show (if r ≠ [] ∧ t ≠ 0 then st.records ++ [mkRecord r st.data]
    else st.records) = _
  rw [if_pos ⟨hr, ht0⟩]

/-- Without a truthy total, the flush saves nothing. -/
theorem flushRecords_of_no_total {st : ParseState}
    (h : st.data.total_price = none) : flushRecords st = st.records := by
  unfold flushRecords
  rw [h]
  cases st.current_retailer <;> rfl

/-- Any line classified as a heading flushes and resets, whatever the
text between the asterisks. -/
theorem processLineL_of_heading_class (st : ParseState) {l0 : List Char}
    (h : classifyLine (pyStrip l0) = .heading) :
    processLineL st l0 =
      ⟨some (pyStrip (dropStars (pyStrip l0))), {}, flushRecords st⟩ := by
  unfold processLineL
  simp only [h]

/-- Folding one well-formed rendered section from any state: the previous
section is flushed, and afterwards the current retailer is the section's
name with its (nonzero) total accumulated. -/
theorem section_fold (st : ParseState) {s : RSection} (hs : goodSection s) :
    ((renderSection s).foldl processLineL st).records = flushRecords st ∧
    ((renderSection s).foldl processLineL st).current_retailer = some s.name ∧
    ((renderSection s).foldl processLineL st).data.total_price =
      some (amountQ s.amount) := by
  obtain ⟨hn, ha, hpre, hpost⟩ := hs
  rw [show renderSection s =
      headingLineOf s.name :: (s.pre ++ (totalLineOf s.amount :: s.post))
    from rfl,
    List.foldl_cons, List.foldl_append, List.foldl_cons,
    processLineL_heading_good st hn]
  set st2 :=
    s.pre.foldl processLineL (⟨some s.name, {}, flushRecords st⟩ : ParseState)
    with hst2
  obtain ⟨hr2, hc2, ht2⟩ :=
    foldl_neutral (⟨some s.name, {}, flushRecords st⟩ : ParseState) hpre
  rw [← hst2] at hr2 hc2 ht2
  rw [processLineL_totalLineOf _ ha]
  obtain ⟨hr4, hc4, ht4⟩ := foldl_neutral
    ({ st2 with
        data := { st2.data with total_price := some (amountQ s.amount) } }) hpost
  refine ⟨?_, ?_, ?_⟩
  · rw [hr4]
    exact hr2
  · rw [hc4]
    exact hc2
  · rw [ht4]

/-- Folding a list of well-formed rendered sections: after the final
flush, the (retailer, total) pairs of the saved records are exactly the
sections' (name, amount) pairs, appended to whatever the starting state
flushes. -/
theorem report_fold (sections : List RSection) (st : ParseState)
    (hgood : ∀ s ∈ sections, goodSection s) :
    (flushRecords ((renderReport sections).foldl processLineL st)).map recPair =
      (flushRecords st).map recPair ++ sections.map sectionPair := by
  induction sections generalizing st with
  | nil => simp [renderReport]
  | cons s rest ih =>
    have hs := hgood s (List.mem_cons_self _ _)
    have hrest := fun s' hs' => hgood s' (List.mem_cons_of_mem _ hs')
    have hrr : renderReport (s :: rest) =
        renderSection s ++ renderReport rest := by
      simp [renderReport]
    rw [hrr, List.foldl_append]
    rw [ih ((renderSection s).foldl processLineL st) hrest]
    obtain ⟨hr, hc, ht⟩ := section_fold st hs
    rw [flushRecords_of_truthy hc ht (goodName_ne_nil hs.1)
      (goodAmount_ne_zero hs.2.1)]
    rw [hr]
    simp only [List.map_append, List.map_cons, List.map_nil, List.append_assoc,
      List.cons_append, List.nil_append]
    congr 2
    unfold recPair mkRecord sectionPair
    rw [ht]
    rfl

/-! ## C4 — parser on well-formed reports -/

/-- C4 (counterexample): the claim quantifies over every report whose
sections each contain a `TOTAL: $X.XX` line, and `$0.00` is of that form;
but `_store_price_data` only keeps a total when `_extract_price` returns
a truthy value (`if price:`), and `0.0` is falsy, so a report with one
bolded section whose total is `$0.00` yields 0 records instead of 1. -/
theorem c4_zero_total_counterexample :
    storePriceData "**Shop**\nTOTAL: $0.00" = [] ∧
    ¬(storePriceData "**Shop**\nTOTAL: $0.00").length = 1 := by
  decide

/-- C4 (amended): for every report consisting of N distinct bolded
retailer sections, each containing one `TOTAL: $X.XX` line with X
*nonzero* (plus any body lines that are neither headings nor TOTAL
lines), parsing stores exactly N records whose (retailer, total) pairs
are the sections' names with the value of X, thousands separators
stripped. -/
theorem c4_wellformed_report (sections : List RSection)
    (hgood : ∀ s ∈ sections, goodSection s)
    (hdistinct : (sections.map RSection.name).Nodup) :
    (processLinesL (renderReport sections)).length = sections.length ∧
    (processLinesL (renderReport sections)).map recPair =
      sections.map sectionPair := by
  have hmap := report_fold sections initState hgood
  have hinit : (flushRecords initState).map recPair = [] := rfl
  rw [hinit, List.nil_append] at hmap
  unfold processLinesL
  refine ⟨?_, hmap⟩
  have hlen := congrArg List.length hmap
  simpa using hlen

/-- C4 witness: a two-section report with thousands separators, a free
shipping line and a URL line parses to exactly its two (retailer, total)
pairs. -/
theorem c4_wellformed_report_witness :
    (processLinesL (renderReport
      [⟨"BestBuy".toList, "1,299.99".toList,
        ["Base Price: $1,199.99".toList, "Shipping: Free".toList], []⟩,
       ⟨"Amazon".toList, "94.00".toList, [],
        ["URL: https://amazon.com/x".toList]⟩])).map recPair =
      [("BestBuy".toList, mkRat 129999 100), ("Amazon".toList, 94)] := by
  have h := (c4_wellformed_report
    [⟨"BestBuy".toList, "1,299.99".toList,
      ["Base Price: $1,199.99".toList, "Shipping: Free".toList], []⟩,
     ⟨"Amazon".toList, "94.00".toList, [],
      ["URL: https://amazon.com/x".toList]⟩]
    (by decide) (by decide)).2
  rw [h]
  decide

/-! ## C5 — sections without a TOTAL line -/

/-- C5: inserting a retailer section with no TOTAL line (a heading
followed by body lines that are neither headings nor TOTAL lines)
anywhere between complete sections leaves the parse output unchanged:
the section contributes zero records and the records of everything
before and after it are identical.  `L2` is the rest of the report,
which is either empty or starts with the next section's heading. -/
theorem c5_no_total_section (L1 L2 : List (List Char)) (badName : List Char)
    (badBody : List (List Char))
    (hbody : ∀ l ∈ badBody, neutralLine l = true)
    (hL2 : L2 = [] ∨ ∃ l0 rest, L2 = l0 :: rest ∧
      classifyLine (pyStrip l0) = .heading) :
    processLinesL (L1 ++ (headingLineOf badName :: badBody) ++ L2) =
      processLinesL (L1 ++ L2) := by
  unfold processLinesL
  simp only [List.foldl_append, List.foldl_cons]
  rw [processLineL_heading (L1.foldl processLineL initState) badName]
  set st1 := L1.foldl processLineL initState with hst1
  set stb : ParseState :=
    ⟨some (pyStrip (dropStars (headingLineOf badName))), {}, flushRecords st1⟩
    with hstb
  obtain ⟨hrb, hcb, htb⟩ := foldl_neutral stb hbody
  have htb' : (badBody.foldl processLineL stb).data.total_price = none := htb
  have hrb' : (badBody.foldl processLineL stb).records = flushRecords st1 := hrb
  have hfl : flushRecords (badBody.foldl processLineL stb) = flushRecords st1 := by
    rw [flushRecords_of_no_total htb', hrb']
  rcases hL2 with rfl | ⟨l0, rest, rfl, hl0⟩
  · -- end of report: the bad section has no truthy total, so the final
    -- flush adds nothing beyond what flushing st1 adds.
    simp only [List.foldl_nil]
    exact hfl
  · -- the next heading flushes: nothing from the bad section (no total),
    -- and the same pending record from st1 on both sides.
    simp only [List.foldl_cons]
    rw [processLineL_of_heading_class _ hl0, processLineL_of_heading_class _ hl0,
      hfl]

/-- C5 witness: a "GameStop" section with only a base-price line,
inserted between two complete sections, changes nothing. -/
theorem c5_no_total_section_witness :
    processLinesL (["**A**".toList, "TOTAL: $5.00".toList] ++
      (headingLineOf "GameStop".toList :: ["Base Price: $3.00".toList]) ++
      ["**B**".toList, "TOTAL: $7.50".toList]) =
      processLinesL (["**A**".toList, "TOTAL: $5.00".toList] ++
        ["**B**".toList, "TOTAL: $7.50".toList]) :=
  c5_no_total_section ["**A**".toList, "TOTAL: $5.00".toList]
    ["**B**".toList, "TOTAL: $7.50".toList] "GameStop".toList
    ["Base Price: $3.00".toList] (by decide)
    (Or.inr ⟨"**B**".toList, ["TOTAL: $7.50".toList], rfl, by decide⟩)

/-! ## C6 — free-shipping normalization -/

/-- C6: for every line the `elif` chain classifies as a shipping line, if
the (stripped) line contains "free" in any letter case then the parsed
shipping value is 0.0 — regardless of any numeral elsewhere in the line —
and nothing else in the parse state changes. -/
theorem c6_free_shipping (st : ParseState) (l : List Char)
    (hclass : classifyLine (pyStrip l) = .shippingLine)
    (hfree : subIn "free".toList (toLowerList (pyStrip l)) = true) :
    (processLineL st l).data.shipping = some 0 ∧
    processLineL st l =
      { st with data := { st.data with shipping := some 0 } } := by
  have h : processLineL st l =
      { st with data := { st.data with shipping := some 0 } } := by
    unfold processLineL
    simp only [hclass]
    rw [if_pos hfree]
  exact ⟨by rw [h], h⟩

/-- C6 witness: a free-shipping line carrying a numeral still parses as
shipping 0. -/
theorem c6_free_shipping_witness :
    (processLineL initState "Shipping: FREE (save $5.99)".toList).data.shipping =
      some 0 :=
  (c6_free_shipping initState "Shipping: FREE (save $5.99)".toList
    (by decide) (by decide)).1

/-! ## Extraction lemmas (C9, C10) -/

/-- Every character of the regex group comes from the scanned text. -/
theorem numTail_subset (m : List Char) : ∀ c ∈ numTail m, c ∈ m := by
  intro c hc
  simp only [numTail] at hc
  split at hc
  · next heq =>
    rcases List.mem_append.mp hc with hm | hm
    · exact List.takeWhile_subset _ hm
    · have hdrop := List.drop_subset (m.takeWhile isDigitOrComma).length m
      rcases List.mem_cons.mp hm with rfl | hm
      · exact hdrop (heq ▸ List.mem_cons_self _ _)
      · exact hdrop (heq ▸ List.mem_cons_of_mem _ (List.takeWhile_subset _ hm))
  · exact List.takeWhile_subset _ hc

theorem regexSearchNum_cons (c : Char) (rest : List Char) :
    regexSearchNum (c :: rest) =
      if isDigitOrComma c then some (numTail (c :: rest))
      else if c = '$' then
        match rest with
        | [] => none
        | d :: _ =>
          if isDigitOrComma d then some (numTail rest) else regexSearchNum rest
      else regexSearchNum rest := rfl

theorem regexSearchNum_subset {l g : List Char} (h : regexSearchNum l = some g) :
    ∀ c ∈ g, c ∈ l := by
  induction l with
  | nil => simp [regexSearchNum] at h
  | cons x rest ih =>
    rw [regexSearchNum_cons] at h
    by_cases hx : isDigitOrComma x = true
    · rw [if_pos hx] at h
      obtain rfl := Option.some.inj h
      exact numTail_subset _
    · rw [if_neg hx] at h
      by_cases hdollar : x = '$'
      · rw [if_pos hdollar] at h
        cases rest with
        | nil => simp at h
        | cons d rest' =>
          have h' : (if isDigitOrComma d then some (numTail (d :: rest'))
              else regexSearchNum (d :: rest')) = some g := h
          by_cases hd : isDigitOrComma d = true
          · rw [if_pos hd] at h'
            obtain rfl := Option.some.inj h'
            exact fun c hc =>
              List.mem_cons_of_mem _ (numTail_subset _ c hc)
          · rw [if_neg hd] at h'
            exact fun c hc => List.mem_cons_of_mem _ (ih h' c hc)
      · rw [if_neg hdollar] at h
        exact fun c hc => List.mem_cons_of_mem _ (ih h c hc)

/-- A successful Python `float` conversion yields a nonnegative value
(the strings the parser feeds it are unsigned decimals). -/
theorem pyFloat_nonneg {s : List Char} {q : ℚ} (h : pyFloat s = some q) :
    0 ≤ q := by
  simp only [pyFloat] at h
  split at h
  · split at h
    · exact absurd h (by simp)
    · obtain rfl := Option.some.inj h
      exact Nat.cast_nonneg _
  · split at h
    · split at h
      · exact absurd h (by simp)
      · obtain rfl := Option.some.inj h
        exact Rat.mkRat_nonneg (by positivity) _
    · exact absurd h (by simp)
  · exact absurd h (by simp)

/-- A successful conversion means some digit was seen: the integer part
is nonempty, or the fractional part is. -/
theorem pyFloat_some_digit {s : List Char} {q : ℚ} (h : pyFloat s = some q) :
    ∃ c ∈ s, c.isDigit = true := by
  simp only [pyFloat] at h
  split at h
  · split at h
    · exact absurd h (by simp)
    · next hne =>
      have hip : s.takeWhile Char.isDigit ≠ [] := by
        intro he
        exact hne (by rw [he]; rfl)
      obtain ⟨c, cs, hcons⟩ := List.exists_cons_of_ne_nil hip
      refine ⟨c, List.takeWhile_subset _ (hcons ▸ List.mem_cons_self _ _),
        List.mem_takeWhile_imp (hcons ▸ List.mem_cons_self _ _)⟩
  · next frac heq =>
    split at h
    · next hall =>
      split at h
      · exact absurd h (by simp)
      · next hne =>
        by_cases hip : s.takeWhile Char.isDigit = []
        · have hfrac : frac ≠ [] := by
            intro he
            exact hne (by rw [hip, he]; rfl)
          obtain ⟨f, fs, hcons⟩ := List.exists_cons_of_ne_nil hfrac
          refine ⟨f, ?_, ?_⟩
          · have hmem : f ∈ s.drop (s.takeWhile Char.isDigit).length := by
              rw [heq, hcons]
              exact List.mem_cons_of_mem _ (List.mem_cons_self _ _)
            exact List.drop_subset _ _ hmem
          · have := List.all_eq_true.mp hall f (hcons ▸ List.mem_cons_self _ _)
            simpa using this
        · obtain ⟨c, cs, hcons⟩ := List.exists_cons_of_ne_nil hip
          refine ⟨c, List.takeWhile_subset _ (hcons ▸ List.mem_cons_self _ _),
            List.mem_takeWhile_imp (hcons ▸ List.mem_cons_self _ _)⟩
    · exact absurd h (by simp)
  · exact absurd h (by simp)

theorem extractPrice_nonneg {l : List Char} {q : ℚ}
    (h : extractPrice l = some q) : 0 ≤ q := by
  unfold extractPrice at h
  split at h
  · exact pyFloat_nonneg h
  · exact absurd h (by simp)

theorem extractPrice_digit {l : List Char} {q : ℚ}
    (h : extractPrice l = some q) : ∃ c ∈ l, c.isDigit = true := by
  unfold extractPrice at h
  split at h
  · next g hre =>
    obtain ⟨c, hc, hd⟩ := pyFloat_some_digit h
    exact ⟨c, regexSearchNum_subset hre c (List.mem_filter.mp hc).1, hd⟩
  · exact absurd h (by simp)

/-! ## C9 — extraction is total -/

/-- C9: `_extract_price` is a total function into an optional number —
it never raises.  The regex search failing, or the `float` conversion of
the comma-stripped group failing, leaves the field absent (`None`); a
successful match-and-convert returns exactly the converted number.
Moreover every returned number is nonnegative and implies a digit was
present; with no digit in the input, the result is always absent. -/
theorem c9_extraction_total (s : List Char) :
    (regexSearchNum s = none → extractPrice s = none) ∧
    (∀ g q, regexSearchNum s = some g →
      pyFloat (g.filter (fun c => c ≠ ',')) = some q →
      extractPrice s = some q) ∧
    (∀ g, regexSearchNum s = some g →
      pyFloat (g.filter (fun c => c ≠ ',')) = none → extractPrice s = none) ∧
    (∀ q, extractPrice s = some q → 0 ≤ q ∧ ∃ c ∈ s, c.isDigit = true) ∧
    ((∀ c ∈ s, c.isDigit = false) → extractPrice s = none) := by
  refine ⟨?_, ?_, ?_, ?_, ?_⟩
  · intro h
    unfold extractPrice
    rw [h]
  · intro g q hg hf
    unfold extractPrice
    rw [hg]
    exact hf
  · intro g hg hf
    unfold extractPrice
    rw [hg]
    exact hf
  · intro q hq
    exact ⟨extractPrice_nonneg hq, extractPrice_digit hq⟩
  · intro hnd
    cases hex : extractPrice s with
    | none => rfl
    | some q =>
      obtain ⟨c, hc, hd⟩ := extractPrice_digit hex
      rw [hnd c hc] at hd
      exact absurd hd (by simp)

/-- C9 witness: a typical total line extracts its nonnegative price; the
first-match-fails line `a, 5` and the digitless line yield `None`. -/
theorem c9_extraction_total_witness :
    0 ≤ (96 : ℚ) ∧ ∃ c ∈ "Total: $96.00".toList, c.isDigit = true :=
  (c9_extraction_total "Total: $96.00".toList).2.2.2.1 96 (by decide)

/-! ## C10 — stored-record invariant -/

theorem flushRecords_ok {st : ParseState} (h : StateOk st) :
    ∀ r ∈ flushRecords st, RecordOk r := by
  obtain ⟨hrec, htot, hbase, htax, hship⟩ := h
  intro r hr
  unfold flushRecords at hr
  split at hr
  · next rname t hcr htp =>
    split at hr
    · rcases List.mem_append.mp hr with hm | hm
      · exact hrec r hm
      · simp only [List.mem_singleton] at hm
        subst hm
        refine ⟨?_, ?_, ?_, ?_⟩
        · show 0 < (mkRecord rname st.data).total_price
          unfold mkRecord
          simp only [htp, Option.getD_some]
          exact htot t htp
        · show 0 ≤ (mkRecord rname st.data).base_price
          unfold mkRecord
          cases hb : st.data.base_price with
          | none => simp
          | some b => simpa using hbase b hb
        · show 0 ≤ (mkRecord rname st.data).tax
          unfold mkRecord
          cases hb : st.data.tax with
          | none => simp
          | some b => simpa using htax b hb
        · show 0 ≤ (mkRecord rname st.data).shipping
          unfold mkRecord
          cases hb : st.data.shipping with
          | none => simp
          | some b => simpa using hship b hb
    · exact hrec r hr
  · exact hrec r hr

theorem processLineL_ok {st : ParseState} (l : List Char) (h : StateOk st) :
    StateOk (processLineL st l) := by
  obtain ⟨hrec, htot, hbase, htax, hship⟩ := h
  unfold processLineL
  cases hcl : classifyLine (pyStrip l) with
  | heading =>
    simp only [hcl]
    refine ⟨flushRecords_ok ⟨hrec, htot, hbase, htax, hship⟩, ?_, ?_, ?_, ?_⟩ <;>
      · intro q hq
        exact absurd hq (by simp)
  | basePriceLine =>
    simp only [hcl]
    split
    · next p he =>
      split
      · next hp =>
        refine ⟨hrec, htot, ?_, htax, hship⟩
        intro q hq
        obtain rfl : p = q := by simpa using hq
        exact extractPrice_nonneg he
      · exact ⟨hrec, htot, hbase, htax, hship⟩
    · exact ⟨hrec, htot, hbase, htax, hship⟩
  | taxLine =>
    simp only [hcl]
    split
    · next p he =>
      split
      · next hp =>
        refine ⟨hrec, htot, hbase, ?_, hship⟩
        intro q hq
        obtain rfl : p = q := by simpa using hq
        exact extractPrice_nonneg he
      · exact ⟨hrec, htot, hbase, htax, hship⟩
    · exact ⟨hrec, htot, hbase, htax, hship⟩
  | shippingLine =>
    simp only [hcl]
    split
    · refine ⟨hrec, htot, hbase, htax, ?_⟩
      intro q hq
      obtain rfl : (0 : ℚ) = q := by simpa using hq
      exact le_refl 0
    · split
      · next p he =>
        split
        · next hp =>
          refine ⟨hrec, htot, hbase, htax, ?_⟩
          intro q hq
          obtain rfl : p = q := by simpa using hq
          exact extractPrice_nonneg he
        · exact ⟨hrec, htot, hbase, htax, hship⟩
      · exact ⟨hrec, htot, hbase, htax, hship⟩
  | totalLine =>
    simp only [hcl]
    split
    · next p he =>
      split
      · next hp =>
        refine ⟨hrec, ?_, hbase, htax, hship⟩
        intro q hq
        obtain rfl : p = q := by simpa using hq
        exact lt_of_le_of_ne (extractPrice_nonneg he) (Ne.symm hp)
      · exact ⟨hrec, htot, hbase, htax, hship⟩
    · exact ⟨hrec, htot, hbase, htax, hship⟩
  | urlLine =>
    simp only [hcl]
    exact ⟨hrec, htot, hbase, htax, hship⟩
  | cashbackLine =>
    simp only [hcl]
    exact ⟨hrec, htot, hbase, htax, hship⟩
  | cardLine =>
    simp only [hcl]
    exact ⟨hrec, htot, hbase, htax, hship⟩
  | other =>
    simp only [hcl]
    exact ⟨hrec, htot, hbase, htax, hship⟩

theorem foldl_ok (lines : List (List Char)) (st : ParseState) (h : StateOk st) :
    StateOk (lines.foldl processLineL st) := by
  induction lines generalizing st with
  | nil => exact h
  | cons x xs ih => exact ih _ (processLineL_ok x h)

theorem initState_ok : StateOk initState := by
  refine ⟨?_, ?_, ?_, ?_, ?_⟩ <;>
    · intro q hq
      exact absurd hq (by simp [initState])

/-- C10: every record the parser persists has a strictly positive total
price (a section whose extracted total is exactly 0 is dropped — the
truthiness checks `if price:` and `current_data.get('total_price')`
reject `0.0` — so no zero-total row is ever stored), and its numeric
fields are nonnegative.  The remaining columns are structurally non-null:
`_save_record` fills absent keys with `data.get(k, 0)` for base price,
tax and shipping and `data.get(k, '')` for URL, cashback and credit-card
notes, as the `mkRecord` embedding shows. -/
theorem c10_stored_record_invariant (lines : List (List Char))
    (r : PriceRecord) (hr : r ∈ processLinesL lines) :
    0 < r.total_price ∧ 0 ≤ r.base_price ∧ 0 ≤ r.tax ∧ 0 ≤ r.shipping :=
  flushRecords_ok (foldl_ok lines initState initState_ok) r hr

/-- C10 witness: the single record of a one-section report has a positive
total and zero defaults. -/
theorem c10_stored_record_invariant_witness :
    0 < (⟨"A".toList, [], 0, 0, 0, 5, [], []⟩ : PriceRecord).total_price ∧
    0 ≤ (⟨"A".toList, [], 0, 0, 0, 5, [], []⟩ : PriceRecord).base_price ∧
    0 ≤ (⟨"A".toList, [], 0, 0, 0, 5, [], []⟩ : PriceRecord).tax ∧
    0 ≤ (⟨"A".toList, [], 0, 0, 0, 5, [], []⟩ : PriceRecord).shipping :=
  c10_stored_record_invariant ["**A**".toList, "TOTAL: $5.00".toList]
    ⟨"A".toList, [], 0, 0, 0, 5, [], []⟩ (by decide)

end ShoppingAgent
